import Mathlib

/-!
Verification of the Surge-Geosite-Enhance build pipeline.

Shallow embedding of the repository's JavaScript build scripts:
* `scripts/build-geosite-json.mjs` — decode/normalize domain rules into
  per-category JSON (rule mapping, attribute extraction, canonical sort).
* `scripts/build-srs.mjs` — attribute filtering (`@cn` / `@!cn`) and
  bucketing into headless sing-box rules; sequential compile loop.
* the geoip builder — IPv4/IPv6 CIDR text rendering (including the `::`
  compression), group construction, and the bounded worker pool.
* `scripts/sync-r2.mjs` — manifest diff, changed-set computation, and the
  merge-then-upload publisher.

Machine integers do not overflow in any modelled path, so numbers are
modelled as `Nat`/`Int`.  JavaScript strings are modelled as Lean `String`
(a wrapped `List Char`), with explicit ASCII case folding mirroring
`String.prototype.toLowerCase` on the data actually processed.
-/

namespace Geosite

/-! ### Character / string comparison (model of `localeCompare` with
`sensitivity: "base"`: compare the case-folded strings code unit by code
unit). -/

/-- Three-way comparison on characters by code point. -/
def charCmp (a b : Char) : Ordering :=
  if a.toNat < b.toNat then .lt else if a.toNat = b.toNat then .eq else .gt

/-- Lexicographic three-way comparison on character lists. -/
def lexCmp : List Char → List Char → Ordering
  | [], [] => .eq
  | [], _ :: _ => .lt
  | _ :: _, [] => .gt
  | a :: as, b :: bs =>
    match charCmp a b with
    | .eq => lexCmp as bs
    | o => o

/-- ASCII lower-casing of a string's characters (model of
`String.prototype.toLowerCase` on the ASCII data this pipeline handles). -/
def lowerChars (s : String) : List Char := s.data.map Char.toLower

/-- ASCII lower-cased string. -/
def lowerStr (s : String) : String := ⟨s.data.map Char.toLower⟩

/-- Whitespace trim at both ends (model of `String.prototype.trim`). -/
def trimStr (s : String) : String :=
  ⟨((s.data.dropWhile Char.isWhitespace).reverse.dropWhile Char.isWhitespace).reverse⟩

/-- Case-insensitive comparison: the model of
`a.localeCompare(b, "en", { sensitivity: "base" })`. -/
def icmp (a b : String) : Ordering := lexCmp (lowerChars a) (lowerChars b)

/-- `a` sorts no later than `b` under the case-insensitive comparator. -/
def strLe (a b : String) : Prop := icmp a b ≠ .gt

instance : DecidableRel strLe := fun a b =>
  inferInstanceAs (Decidable (icmp a b ≠ Ordering.gt))

/-! ### Stable insertion sort

`Array.prototype.sort` in V8 (Node 18) is a stable sort; the unique stable
sort of a list under a comparator is computed by insertion sort in which an
element is inserted before the first later element it does not exceed. -/

variable {α : Type}

/-- Insert `a` into `l`, before the first element `b` with `le a b`
(ties keep the earlier-input element first: stability). -/
def sInsert (le : α → α → Prop) [DecidableRel le] (a : α) : List α → List α
  | [] => [a]
  | b :: l => if le a b then a :: b :: l else b :: sInsert le a l

/-- Stable insertion sort under `le`. -/
def insSort (le : α → α → Prop) [DecidableRel le] : List α → List α
  | [] => []
  | a :: l => sInsert le a (insSort le l)

end Geosite

namespace Geosite

/-! ### `scripts/build-geosite-json.mjs`: rule normalization -/

/-- The `oneof typed_value` of a decoded `Domain.Attribute`: a boolean
flag, an integer, or unset. -/
inductive AttrVal : Type
  | bv : Bool → AttrVal
  | iv : Int → AttrVal
  | unset : AttrVal
deriving DecidableEq, Repr

/-- A decoded `Domain.Attribute`: key plus typed value. -/
structure DecodedAttr : Type where
  key : String
  val : AttrVal
deriving DecidableEq, Repr

/-- A decoded `Domain` sub-record.  `dtype` is the enum name as stringified
by `protobufjs` `toObject` with `{enums: String}` ("Plain" | "Regex" |
"Domain" | "Full"). -/
structure DecodedDomain : Type where
  dtype : String
  value : String
  attrList : List DecodedAttr
deriving DecidableEq, Repr

/-- `domainTypeToRuleType` from `build-geosite-json.mjs`. -/
def domainTypeToRuleType (t : String) : String :=
  match t with
  | "Domain" => "domain"
  | "Full" => "full"
  | "Plain" => "keyword"
  | "Regex" => "regexp"
  | _ => "domain"

/-- `extractAttrs` from `build-geosite-json.mjs`: a truthy boolean attribute
contributes its bare key, a false boolean contributes nothing, an integer
attribute contributes `key=value`, an unset value contributes the bare key. -/
def extractAttrs : List DecodedAttr → List String
  | [] => []
  | a :: rest =>
    (match a.val with
     | .bv true => [a.key]
     | .bv false => []
     | .iv n => [a.key ++ "=" ++ toString n]
     | .unset => [a.key]) ++ extractAttrs rest

/-- A normalized rule as emitted in the per-category JSON:
`{type, value, attrs}`. -/
structure Rule : Type where
  rtype : String
  value : String
  attrs : List String
deriving DecidableEq, Repr

/-- The per-rule map of `build-geosite-json.mjs` `main` (lines 138–142):
type mapping, value trim, attribute extraction plus case-insensitive sort
of the attribute list. -/
def toRule (d : DecodedDomain) : Rule :=
  { rtype := domainTypeToRuleType d.dtype
  , value := trimStr d.value
  , attrs := insSort strLe (extractAttrs d.attrList) }

/-- The rule comparator of `build-geosite-json.mjs` (lines 144–147): equal
`type` strings compare by `value`, otherwise by `type`, each with the
case-insensitive comparator. -/
def ruleCmp (a b : Rule) : Ordering :=
  if a.rtype = b.rtype then icmp a.value b.value else icmp a.rtype b.rtype

/-- Non-strict order induced by `ruleCmp`. -/
def ruleLe (a b : Rule) : Prop := ruleCmp a b ≠ .gt

instance : DecidableRel ruleLe := fun a b =>
  inferInstanceAs (Decidable (ruleCmp a b ≠ Ordering.gt))

/-- Normalization of one category's decoded domain list: map then stable
sort by `(type, value)` (lines 137–147 of `build-geosite-json.mjs`). -/
def normalizeRules (ds : List DecodedDomain) : List Rule :=
  insSort ruleLe (ds.map toRule)

/-- A decoded top-level `GeoSite` entry. -/
structure GeoSiteEntry : Type where
  country_code : Option String
  domain : List DecodedDomain
deriving DecidableEq, Repr

/-- `String(site.country_code || "").trim()`. -/
def entryName (e : GeoSiteEntry) : String := trimStr (e.country_code.getD "")

/-- A built category `{name, rules}`. -/
structure Category : Type where
  name : String
  rules : List Rule
deriving DecidableEq, Repr

/-- The category-collection loop of `build-geosite-json.mjs` `main`
(lines 132–149): entries whose name trims to empty are skipped. -/
def buildCategories : List GeoSiteEntry → List Category
  | [] => []
  | e :: rest =>
    if entryName e = "" then buildCategories rest
    else { name := entryName e, rules := normalizeRules e.domain } :: buildCategories rest

/-- Category name order (line 152). -/
def catLe (a b : Category) : Prop := icmp a.name b.name ≠ .gt

instance : DecidableRel catLe := fun a b =>
  inferInstanceAs (Decidable (icmp a.name b.name ≠ Ordering.gt))

/-- Categories sorted by name for the index and README. -/
def sortedCategories (es : List GeoSiteEntry) : List Category :=
  insSort catLe (buildCategories es)

/-- The `index.json` content: sorted `name → URL` pairs (lines 160–165). -/
def geositeIndex (es : List GeoSiteEntry) : List (String × String) :=
  (sortedCategories es).map
    (fun c => (c.name, "https://direct.sleepstars.de/geosite/" ++ c.name))

/-! ### `scripts/build-srs.mjs`: attribute filtering and bucketing -/

/-- A rule as read back from a category JSON file. -/
structure SRule : Type where
  rtype : String
  value : String
  attrs : List String
deriving DecidableEq, Repr

/-- `filter?.toLowerCase() || null` (line 39): the lower-cased filter tag,
with the empty string collapsed to null. -/
def filterTarget (filter : Option String) : Option String :=
  match filter with
  | none => none
  | some s => let t := lowerStr s; if t = "" then none else some t

/-- Does the string start with `'!'`? (`target?.startsWith("!")`). -/
def strHeadBang (s : String) : Bool :=
  match s.data with
  | c :: _ => c == '!'
  | [] => false

/-- `neg` of `toHeadlessRule` (line 40). -/
def filterNeg (filter : Option String) : Bool :=
  match filterTarget filter with
  | some t => strHeadBang t
  | none => false

/-- `key` of `toHeadlessRule` (line 41): the attribute name without `'!'`,
null when the filter is null. -/
def filterKey (filter : Option String) : Option String :=
  match filterTarget filter with
  | none => none
  | some t => some (if strHeadBang t then ⟨t.data.drop 1⟩ else t)

/-- `attrs.includes(key)` over the lower-cased attribute list (lines 51–53). -/
def ruleHasKey (r : SRule) (key : String) : Bool :=
  (r.attrs.map lowerStr).contains key

/-- The per-rule keep decision of the `toHeadlessRule` loop (lines 52–54):
with an active key, the rule is skipped (`continue`) when
`(!neg && !has) || (neg && has)`. -/
def keepRule (filter : Option String) (r : SRule) : Bool :=
  match filterKey filter with
  | some k =>
    if k = "" then true
    else !((!filterNeg filter && !(ruleHasKey r k)) || (filterNeg filter && ruleHasKey r k))
  | none => true

/-- The four aggregation buckets of `toHeadlessRule` (lines 43–48). -/
structure HeadlessAgg : Type where
  domain : List String
  domain_suffix : List String
  domain_keyword : List String
  domain_regex : List String
deriving DecidableEq, Repr

/-- The `toHeadlessRule` loop (lines 50–70): filter, then bucket by rule
type; unknown types land in no bucket. -/
def toHeadlessAgg (filter : Option String) : List SRule → HeadlessAgg
  | [] => ⟨[], [], [], []⟩
  | r :: rest =>
    let agg := toHeadlessAgg filter rest
    if keepRule filter r then
      match r.rtype with
      | "full" => { agg with domain := r.value :: agg.domain }
      | "domain" => { agg with domain_suffix := r.value :: agg.domain_suffix }
      | "keyword" => { agg with domain_keyword := r.value :: agg.domain_keyword }
      | "regexp" => { agg with domain_regex := r.value :: agg.domain_regex }
      | _ => agg
    else agg

/-- The rules that survive the attribute filter. -/
def keptRules (rules : List SRule) (filter : Option String) : List SRule :=
  rules.filter (fun r => keepRule filter r)

/-- Bucketing alone (the body of the `switch`, with no filter). -/
def bucketize : List SRule → HeadlessAgg
  | [] => ⟨[], [], [], []⟩
  | r :: rest =>
    let agg := bucketize rest
    match r.rtype with
    | "full" => { agg with domain := r.value :: agg.domain }
    | "domain" => { agg with domain_suffix := r.value :: agg.domain_suffix }
    | "keyword" => { agg with domain_keyword := r.value :: agg.domain_keyword }
    | "regexp" => { agg with domain_regex := r.value :: agg.domain_regex }
    | _ => agg

/-- The rule "lacks" the attribute key (negation of `attrs.includes(key)`);
vocabulary of the specification's filter sentence. -/
def lacksKey (r : SRule) (key : String) : Bool := !(ruleHasKey r key)

end Geosite

namespace Geosite

/-! ### The geoip builder: CIDR text rendering and groups -/

/-- `toIPv4String`: four dot-separated decimal octets, null unless the
byte length is 4. -/
def toIPv4String (u8 : List Nat) : Option String :=
  if u8.length = 4 then
    some (toString (u8.getD 0 0) ++ "." ++ toString (u8.getD 1 0) ++ "." ++
          toString (u8.getD 2 0) ++ "." ++ toString (u8.getD 3 0))
  else none

/-- Lowercase hex rendering of a word (`words[i].toString(16)`). -/
def hexStr (n : Nat) : String := ⟨Nat.toDigits 16 n⟩

/-- Group 16 bytes into eight big-endian 16-bit words
(`(u8[i] << 8) | u8[i + 1]`). -/
def ipWords : List Nat → List Nat
  | b1 :: b2 :: rest => ((b1 <<< 8) ||| b2) :: ipWords rest
  | _ => []

/-- State of the longest-zero-run scan in `toIPv6String` (lines 69–72);
`-1` is the JavaScript sentinel for "no run open / no best run". -/
structure ZeroRunSt : Type where
  bestStart : Int
  bestLen : Nat
  curStart : Int
  curLen : Nat
deriving DecidableEq, Repr

/-- One iteration of the zero-run scan loop (lines 73–85). -/
def zeroRunStep (st : ZeroRunSt) (i : Nat) (w : Nat) : ZeroRunSt :=
  if w = 0 then
    { st with
      curStart := if st.curStart = -1 then (i : Int) else st.curStart
      curLen := st.curLen + 1 }
  else if st.curLen > st.bestLen then
    { bestStart := st.curStart, bestLen := st.curLen, curStart := -1, curLen := 0 }
  else
    { st with curStart := -1, curLen := 0 }

/-- The zero-run scan loop over the words, carrying the index. -/
def zeroRunGo : ZeroRunSt → Nat → List Nat → ZeroRunSt
  | st, _, [] => st
  | st, i, w :: ws => zeroRunGo (zeroRunStep st i w) (i + 1) ws

/-- The parts-building `while` loop of `toIPv6String` (lines 93–104),
with explicit fuel (the loop runs at most 8 iterations; fuel 9 suffices). -/
def partsGo (words : List Nat) (bestStart : Int) (bestLen : Nat) : Nat → Nat → List String
  | 0, _ => []
  | fuel + 1, i =>
    if i < 8 then
      if (i : Int) = bestStart then
        "" :: (if i + bestLen ≥ 8 then [""] else partsGo words bestStart bestLen fuel (i + bestLen))
      else
        hexStr (words.getD i 0) :: partsGo words bestStart bestLen fuel (i + 1)
    else []

/-- `parts.join(":")`. -/
def joinColon : List String → String
  | [] => ""
  | [s] => s
  | s :: rest => s ++ ":" ++ joinColon rest

/-- `.replace(/^:/, "::")`: the one leading colon, if any, becomes two. -/
def fixLeadColon (s : String) : String :=
  match s.data with
  | ':' :: rest => ⟨':' :: ':' :: rest⟩
  | _ => s

/-- `.replace(/:$/, "::")`: the one trailing colon, if any, becomes two. -/
def fixTrailColon (s : String) : String :=
  match s.data.getLast? with
  | some ':' => ⟨s.data.dropLast ++ [':', ':']⟩
  | _ => s

/-- `toIPv6String` (lines 62–106): eight hex words joined with `:`, the
best zero run of length ≥ 2 elided, and the edge colons doubled. -/
def toIPv6String (u8 : List Nat) : Option String :=
  if u8.length = 16 then
    let words := ipWords u8
    let st := zeroRunGo ⟨-1, 0, -1, 0⟩ 0 words
    let st :=
      if st.curLen > st.bestLen then
        { st with bestStart := st.curStart, bestLen := st.curLen }
      else st
    let bestStart := if st.bestLen < 2 then (-1 : Int) else st.bestStart
    some (fixTrailColon (fixLeadColon (joinColon (partsGo words bestStart st.bestLen 9 0))))
  else none

/-- A decoded `CIDR` sub-record: raw address bytes plus prefix length. -/
structure CidrRec : Type where
  ip : List Nat
  plen : Nat
deriving DecidableEq, Repr

/-- The per-group CIDR collection loop (lines 135–145 of the geoip
builder): 4-byte addresses feed `cidr4`, 16-byte ones `cidr6`, any other
length contributes to neither list. -/
def collectCidrs : List CidrRec → List String × List String
  | [] => ([], [])
  | c :: rest =>
    let acc := collectCidrs rest
    if c.ip.length = 4 then
      match toIPv4String c.ip with
      | some s => ((s ++ "/" ++ toString c.plen) :: acc.1, acc.2)
      | none => acc
    else if c.ip.length = 16 then
      match toIPv6String c.ip with
      | some s => (acc.1, (s ++ "/" ++ toString c.plen) :: acc.2)
      | none => acc
    else acc

/-- Digit run → numeric value, for the numeric-aware comparison. -/
def digitsToNat (ds : List Char) : Nat :=
  ds.foldl (fun n c => n * 10 + (c.toNat - '0'.toNat)) 0

/-- Split characters into maximal runs of digits / non-digits. -/
def splitNumRuns : List Char → List (List Char)
  | [] => []
  | c :: cs =>
    match splitNumRuns cs with
    | [] => [[c]]
    | [] :: gs => [c] :: [] :: gs
    | (d :: g) :: gs =>
      if c.isDigit = d.isDigit then (c :: d :: g) :: gs
      else [c] :: (d :: g) :: gs

/-- Nat three-way comparison. -/
def natCmp (m n : Nat) : Ordering :=
  if m < n then .lt else if m = n then .eq else .gt

/-- Compare two runs: both digit runs compare numerically, otherwise
lexicographically. -/
def numTokenCmp (a b : List Char) : Ordering :=
  if a ≠ [] ∧ b ≠ [] ∧ a.all Char.isDigit ∧ b.all Char.isDigit then
    natCmp (digitsToNat a) (digitsToNat b)
  else lexCmp a b

/-- Compare run lists positionally. -/
def numRunsCmp : List (List Char) → List (List Char) → Ordering
  | [], [] => .eq
  | [], _ :: _ => .lt
  | _ :: _, [] => .gt
  | a :: as, b :: bs =>
    match numTokenCmp a b with
    | .eq => numRunsCmp as bs
    | o => o

/-- Model of `a.localeCompare(b, "en", { numeric: true })`. -/
def numericCmp (a b : String) : Ordering :=
  numRunsCmp (splitNumRuns a.data) (splitNumRuns b.data)

/-- Order for the `cidr4` list (line 146). -/
def v4Le (a b : String) : Prop := numericCmp a b ≠ .gt

instance : DecidableRel v4Le := fun a b =>
  inferInstanceAs (Decidable (numericCmp a b ≠ Ordering.gt))

/-- A built geoip group `{name, cidr4, cidr6}`. -/
structure IPGroup : Type where
  name : String
  cidr4 : List String
  cidr6 : List String
deriving DecidableEq, Repr

/-- A decoded top-level `GeoIP` entry. -/
structure GeoIPEntry : Type where
  country_code : Option String
  cidr : List CidrRec
deriving DecidableEq, Repr

/-- `String(g.country_code || "").trim()` (line 130). -/
def ipEntryName (e : GeoIPEntry) : String := trimStr (e.country_code.getD "")

/-- The group-building loop of the geoip builder `main` (lines 129–151):
entries whose name trims to empty are skipped; CIDR lists are collected
and sorted. -/
def buildGroups : List GeoIPEntry → List IPGroup
  | [] => []
  | e :: rest =>
    if ipEntryName e = "" then buildGroups rest
    else
      { name := ipEntryName e
      , cidr4 := insSort v4Le (collectCidrs e.cidr).1
      , cidr6 := insSort strLe (collectCidrs e.cidr).2 } :: buildGroups rest

/-- The `geoip-index.json` content (lines 153–158). -/
def geoipIndex (es : List GeoIPEntry) : List (String × String) :=
  (insSort strLe ((buildGroups es).map IPGroup.name)).map
    (fun n => (n, "https://direct.sleepstars.de/geoip/" ++ n))

/-! ### `scripts/sync-r2.mjs`: manifest diff and publisher -/

/-- A manifest entry `{sha256, size}`. -/
structure MEntry : Type where
  sha256 : String
  size : Nat
deriving DecidableEq, Repr

/-- A local inventory item: remote key plus content hash and byte size. -/
structure LocalItem : Type where
  key : String
  sha256 : String
  size : Nat
deriving DecidableEq, Repr

/-- Key lookup on the manifest `entries` object, modelled as an
association list (JavaScript object keys are unique; lookup finds the
first binding). -/
def lookupKey (k : String) : List (String × MEntry) → Option MEntry
  | [] => none
  | (k2, v) :: rest => if k = k2 then some v else lookupKey k rest

/-- The change test of `uploadPlan` (line 164):
`!remote || remote.sha256 !== item.sha256 || remote.size !== item.size`.
Manifest entries are modelled as an association list looked up by key. -/
def isChanged (entries : List (String × MEntry)) (it : LocalItem) : Bool :=
  match lookupKey it.key entries with
  | none => true
  | some e => e.sha256 != it.sha256 || e.size != it.size

/-- The changed set (lines 161–167). -/
def changedSet (plan : List LocalItem) (entries : List (String × MEntry)) : List LocalItem :=
  plan.filter (isChanged entries)

/-- Key assignment on the manifest object: overwrite the entry when the
key exists, append it otherwise (JavaScript object property assignment). -/
def setEntry (entries : List (String × MEntry)) (k : String) (e : MEntry) :
    List (String × MEntry) :=
  if (lookupKey k entries).isSome then
    entries.map (fun p => if p.1 = k then (k, e) else p)
  else entries ++ [(k, e)]

/-- The manifest merge of `uploadPlan` (lines 196–199): spread the remote
entries, then assign every local item over them (local wins). -/
def mergeEntries (entries : List (String × MEntry)) (plan : List LocalItem) :
    List (String × MEntry) :=
  plan.foldl (fun acc it => setEntry acc it.key ⟨it.sha256, it.size⟩) entries

/-- An observable write of the publisher. -/
inductive PubAction : Type
  | putObj : String → PubAction
  | putManifest : PubAction
deriving DecidableEq, Repr

/-- The success path of `uploadPlan` (lines 159–212) as a pure model:
the write actions performed, in order, and the resulting manifest
entries.  With an empty changed set the function returns early with no
writes; otherwise the changed objects are uploaded and the merged
manifest is uploaded last (dry-run performs no writes). -/
def uploadPlanModel (plan : List LocalItem) (entries : List (String × MEntry))
    (dryRun : Bool) : List PubAction × List (String × MEntry) :=
  let changed := changedSet plan entries
  if changed = [] then ([], entries)
  else
    let objActions := if dryRun then [] else changed.map (fun it => PubAction.putObj it.key)
    let merged := mergeEntries entries plan
    let manifestActions := if dryRun then [] else [PubAction.putManifest]
    (objActions ++ manifestActions, merged)

/-! ### Compile-task control flow

A compilation task is modelled by its outcome (`Except`): success, or the
external compiler's failure.  The geoip builder's `runPool` runs every
task, catching a failure into the per-index result slot; the geosite
builder (`build-srs.mjs` `main`) awaits each compile in a sequential loop,
so the first rejection propagates to `main().catch`, which exits 1. -/

/-- Outcome of one compile task. -/
abbrev TaskOutcome := Except String Unit

/-- Did the task fail? -/
def isFailure : TaskOutcome → Bool
  | .error _ => true
  | .ok _ => false

/-- `runPool` (geoip SRS builder, lines 297–314): every task is executed
and its outcome — including a caught failure — is stored in the results. -/
def runPool : List TaskOutcome → List TaskOutcome
  | [] => []
  | t :: ts => t :: runPool ts

/-- The geoip SRS builder `main`: run the pool, ignore the results, exit 0.
Returns `(exit code, recorded results)`. -/
def geoipSrsMain (tasks : List TaskOutcome) : Nat × List TaskOutcome :=
  (0, runPool tasks)

/-- The geosite SRS builder `main` loop (build-srs.mjs, lines 96–111 and
115–118): tasks run one after another, the first failure aborts the run
and the process exits 1.  Returns `(number of tasks executed, exit code)`. -/
def geositeSrsMain : List TaskOutcome → Nat × Nat
  | [] => (0, 0)
  | .ok _ :: ts => ((geositeSrsMain ts).1 + 1, (geositeSrsMain ts).2)
  | .error _ :: _ => (1, 1)

/-- The canonical rule-type strings produced by `domainTypeToRuleType`. -/
def canonType (t : String) : Prop :=
  t = "domain" ∨ t = "full" ∨ t = "keyword" ∨ t = "regexp"

end Geosite

namespace Geosite

/-! ## Sorting lemmas -/

variable {α : Type} {le : α → α → Prop} [DecidableRel le]

theorem sInsert_perm (a : α) (l : List α) : (sInsert le a l).Perm (a :: l) := by
  induction l with
  | nil => simp [sInsert]
  | cons b t ih =>
    by_cases h : le a b
    · simp [sInsert, h]
    · simp only [sInsert, if_neg h]
      exact (ih.cons b).trans (List.Perm.swap a b t)

theorem insSort_perm (l : List α) : (insSort le l).Perm l := by
  induction l with
  | nil => simp [insSort]
  | cons a t ih => exact (sInsert_perm a (insSort le t)).trans (ih.cons a)

theorem pairwise_sInsert {a : α} {l : List α}
    (hl : l.Pairwise le)
    (htot : ∀ b ∈ l, le a b ∨ le b a)
    (htrans : ∀ b ∈ l, ∀ c ∈ l, le a b → le b c → le a c) :
    (sInsert le a l).Pairwise le := by
  induction l with
  | nil => simp [sInsert]
  | cons b t ih =>
    rw [List.pairwise_cons] at hl
    obtain ⟨hb, ht⟩ := hl
    by_cases h : le a b
    · simp only [sInsert, if_pos h]
      refine List.Pairwise.cons ?_ (List.Pairwise.cons hb ht)
      intro x hx
      rcases List.mem_cons.mp hx with rfl | hx
      · exact h
      · exact htrans b (List.mem_cons_self b t) x (List.mem_cons_of_mem b hx) h (hb x hx)
    · simp only [sInsert, if_neg h]
      refine List.Pairwise.cons ?_ (ih ht ?_ ?_)
      · intro x hx
        rcases List.mem_cons.mp ((sInsert_perm a t).mem_iff.mp hx) with rfl | hxt
        · rcases htot b (List.mem_cons_self b t) with hab | hba
          · exact absurd hab h
          · exact hba
        · exact hb x hxt
      · intro c hc; exact htot c (List.mem_cons_of_mem b hc)
      · intro c hc d hd
        exact htrans c (List.mem_cons_of_mem b hc) d (List.mem_cons_of_mem b hd)

theorem pairwise_insSort {l : List α}
    (htot : ∀ a ∈ l, ∀ b ∈ l, le a b ∨ le b a)
    (htrans : ∀ a ∈ l, ∀ b ∈ l, ∀ c ∈ l, le a b → le b c → le a c) :
    (insSort le l).Pairwise le := by
  induction l with
  | nil => simp [insSort]
  | cons a t ih =>
    have hsub : ∀ x ∈ insSort le t, x ∈ t := fun x hx => (insSort_perm t).mem_iff.mp hx
    refine pairwise_sInsert
      (ih (fun x hx y hy =>
            htot x (List.mem_cons_of_mem a hx) y (List.mem_cons_of_mem a hy))
          (fun x hx y hy z hz =>
            htrans x (List.mem_cons_of_mem a hx) y (List.mem_cons_of_mem a hy)
              z (List.mem_cons_of_mem a hz)))
      ?_ ?_
    · intro b hb
      exact htot a (List.mem_cons_self a t) b (List.mem_cons_of_mem a (hsub b hb))
    · intro b hb c hc
      exact htrans a (List.mem_cons_self a t) b (List.mem_cons_of_mem a (hsub b hb))
        c (List.mem_cons_of_mem a (hsub c hc))

omit [DecidableRel le] in
theorem eq_of_perm_of_pairwise :
    ∀ {l₁ l₂ : List α}, l₁.Perm l₂ → l₁.Pairwise le → l₂.Pairwise le →
      (∀ a ∈ l₁, ∀ b ∈ l₁, le a b → le b a → a = b) → l₁ = l₂ := by
  intro l₁
  induction l₁ with
  | nil => intro l₂ hp _ _ _; exact hp.nil_eq
  | cons a t ih =>
    intro l₂ hp h₁ h₂ hanti
    cases l₂ with
    | nil =>
      have := hp.length_eq
      simp at this
    | cons b t₂ =>
      have hab : a = b := by
        have ha2 : a ∈ b :: t₂ := hp.mem_iff.mp (List.mem_cons_self a t)
        have hb1 : b ∈ a :: t := hp.symm.mem_iff.mp (List.mem_cons_self b t₂)
        rcases List.mem_cons.mp ha2 with h | ha2t
        · exact h
        · rcases List.mem_cons.mp hb1 with h | hb1t
          · exact h.symm
          · have hba : le b a := (List.pairwise_cons.mp h₂).1 a ha2t
            have hab' : le a b := (List.pairwise_cons.mp h₁).1 b hb1t
            exact hanti a (List.mem_cons_self a t) b hb1 hab' hba
      subst hab
      have := ih hp.cons_inv (List.pairwise_cons.mp h₁).2 (List.pairwise_cons.mp h₂).2
        (fun x hx y hy hxy hyx =>
          hanti x (List.mem_cons_of_mem a hx) y (List.mem_cons_of_mem a hy) hxy hyx)
      rw [this]

/-! ## Comparator lemmas -/

theorem charCmp_eq_lt_iff {a b : Char} : charCmp a b = .lt ↔ a.toNat < b.toNat := by
  unfold charCmp
  split_ifs <;> simp <;> omega

theorem charCmp_eq_eq_iff {a b : Char} : charCmp a b = .eq ↔ a.toNat = b.toNat := by
  unfold charCmp
  split_ifs <;> simp <;> omega

theorem charCmp_swap (a b : Char) : charCmp b a = (charCmp a b).swap := by
  unfold charCmp
  split_ifs <;> first | rfl | omega

theorem lexCmp_swap : ∀ xs ys : List Char, lexCmp ys xs = (lexCmp xs ys).swap := by
  intro xs
  induction xs with
  | nil => intro ys; cases ys <;> rfl
  | cons a as ih =>
    intro ys
    cases ys with
    | nil => rfl
    | cons b bs =>
      simp only [lexCmp]
      rw [charCmp_swap a b]
      cases h : charCmp a b <;> simp [Ordering.swap, ih bs]

theorem lexCmp_total (xs ys : List Char) : lexCmp xs ys ≠ .gt ∨ lexCmp ys xs ≠ .gt := by
  by_cases h : lexCmp xs ys = .gt
  · right
    rw [lexCmp_swap xs ys, h]
    simp [Ordering.swap]
  · left; exact h

theorem lexCmp_trans :
    ∀ {xs ys zs : List Char}, lexCmp xs ys ≠ .gt → lexCmp ys zs ≠ .gt → lexCmp xs zs ≠ .gt := by
  intro xs
  induction xs with
  | nil =>
    intro ys zs _ _
    cases zs <;> simp [lexCmp]
  | cons a as ih =>
    intro ys zs h1 h2
    cases ys with
    | nil => simp [lexCmp] at h1
    | cons b bs =>
      cases zs with
      | nil => simp [lexCmp] at h2
      | cons c cs =>
        simp only [lexCmp] at h1 h2 ⊢
        cases hab : charCmp a b with
        | gt => simp [hab] at h1
        | eq =>
          rw [hab] at h1
          cases hbc : charCmp b c with
          | gt => simp [hbc] at h2
          | eq =>
            rw [hbc] at h2
            have hac : charCmp a c = .eq := by
              rw [charCmp_eq_eq_iff] at hab hbc ⊢; omega
            rw [hac]
            exact ih h1 h2
          | lt =>
            have hac : charCmp a c = .lt := by
              rw [charCmp_eq_eq_iff] at hab
              rw [charCmp_eq_lt_iff] at hbc ⊢; omega
            simp [hac]
        | lt =>
          cases hbc : charCmp b c with
          | gt => simp [hbc] at h2
          | eq =>
            have hac : charCmp a c = .lt := by
              rw [charCmp_eq_eq_iff] at hbc
              rw [charCmp_eq_lt_iff] at hab ⊢; omega
            simp [hac]
          | lt =>
            have hac : charCmp a c = .lt := by
              rw [charCmp_eq_lt_iff] at hab hbc ⊢; omega
            simp [hac]

theorem icmp_swap (a b : String) : icmp b a = (icmp a b).swap :=
  lexCmp_swap (lowerChars a) (lowerChars b)

theorem icmp_total (a b : String) : icmp a b ≠ .gt ∨ icmp b a ≠ .gt :=
  lexCmp_total (lowerChars a) (lowerChars b)

theorem icmp_trans {a b c : String} (h1 : icmp a b ≠ .gt) (h2 : icmp b c ≠ .gt) :
    icmp a c ≠ .gt :=
  lexCmp_trans h1 h2

theorem icmp_eq_of_le_ge {a b : String} (h1 : icmp a b ≠ .gt) (h2 : icmp b a ≠ .gt) :
    icmp a b = .eq := by
  cases h : icmp a b with
  | eq => rfl
  | gt => exact absurd h h1
  | lt =>
    rw [icmp_swap a b, h] at h2
    simp [Ordering.swap] at h2

theorem canonType_domainTypeToRuleType (t : String) : canonType (domainTypeToRuleType t) := by
  unfold domainTypeToRuleType
  split <;> simp [canonType]

theorem canon_icmp_eq_iff {t₁ t₂ : String} (h₁ : canonType t₁) (h₂ : canonType t₂) :
    icmp t₁ t₂ = .eq ↔ t₁ = t₂ := by
  rcases h₁ with rfl | rfl | rfl | rfl <;> rcases h₂ with rfl | rfl | rfl | rfl <;> decide

theorem ruleLe_total (a b : Rule) : ruleLe a b ∨ ruleLe b a := by
  unfold ruleLe ruleCmp
  by_cases h : a.rtype = b.rtype
  · rw [if_pos h, if_pos h.symm]
    exact icmp_total a.value b.value
  · rw [if_neg h, if_neg (Ne.symm h)]
    exact icmp_total a.rtype b.rtype

theorem ruleLe_trans_canon {a b c : Rule} (ha : canonType a.rtype) (hb : canonType b.rtype)
    (h1 : ruleLe a b) (h2 : ruleLe b c) : ruleLe a c := by
  unfold ruleLe ruleCmp at h1 h2 ⊢
  by_cases hab : a.rtype = b.rtype <;> by_cases hbc : b.rtype = c.rtype
  · rw [if_pos hab] at h1
    rw [if_pos hbc] at h2
    rw [if_pos (hab.trans hbc)]
    exact icmp_trans h1 h2
  · rw [if_neg hbc] at h2
    have hac : a.rtype ≠ c.rtype := by rw [hab]; exact hbc
    rw [if_neg hac, hab]
    exact h2
  · rw [if_neg hab] at h1
    have hac : a.rtype ≠ c.rtype := fun h => hab (h.trans hbc.symm)
    rw [if_neg hac, ← hbc]
    exact h1
  · rw [if_neg hab] at h1
    rw [if_neg hbc] at h2
    by_cases hac : a.rtype = c.rtype
    · rw [← hac] at h2
      exact absurd ((canon_icmp_eq_iff ha hb).mp (icmp_eq_of_le_ge h1 h2)) hab
    · rw [if_neg hac]
      exact icmp_trans h1 h2

/-! ## Publisher lookup lemmas -/

theorem lookup_map_set (es : List (String × MEntry)) (k : String) (e : MEntry) :
    lookupKey k (es.map (fun p => if p.1 = k then (k, e) else p)) =
      if (lookupKey k es).isSome then some e else none := by
  induction es with
  | nil => simp [lookupKey]
  | cons p rest ih =>
    obtain ⟨pk, pv⟩ := p
    rw [List.map_cons]
    rw [show ((pk, pv).1 : String) = pk from rfl]
    by_cases h : pk = k
    · subst h
      rw [if_pos rfl]
      simp [lookupKey]
    · rw [if_neg h]
      simp only [lookupKey, if_neg (Ne.symm h)]
      exact ih

theorem lookup_map_set_ne (es : List (String × MEntry)) (k k0 : String) (e : MEntry)
    (h : k0 ≠ k) :
    lookupKey k0 (es.map (fun p => if p.1 = k then (k, e) else p)) = lookupKey k0 es := by
  induction es with
  | nil => simp
  | cons p rest ih =>
    obtain ⟨pk, pv⟩ := p
    rw [List.map_cons]
    rw [show ((pk, pv).1 : String) = pk from rfl]
    by_cases hp : pk = k
    · subst hp
      rw [if_pos rfl]
      simp only [lookupKey, if_neg h]
      exact ih
    · rw [if_neg hp]
      simp only [lookupKey]
      by_cases hk : k0 = pk
      · rw [if_pos hk, if_pos hk]
      · rw [if_neg hk, if_neg hk]
        exact ih

theorem lookup_append_single (es : List (String × MEntry)) (k : String) (e : MEntry)
    (h : lookupKey k es = none) : lookupKey k (es ++ [(k, e)]) = some e := by
  induction es with
  | nil => simp [lookupKey]
  | cons p rest ih =>
    obtain ⟨pk, pv⟩ := p
    simp only [lookupKey, List.cons_append] at h ⊢
    by_cases hk : k = pk
    · rw [if_pos hk] at h
      exact absurd h (by simp)
    · rw [if_neg hk] at h ⊢
      exact ih h

theorem lookup_append_single_ne (es : List (String × MEntry)) (k k0 : String) (e : MEntry)
    (h : k0 ≠ k) : lookupKey k0 (es ++ [(k, e)]) = lookupKey k0 es := by
  induction es with
  | nil => simp [lookupKey, if_neg h]
  | cons p rest ih =>
    obtain ⟨pk, pv⟩ := p
    simp only [List.cons_append, lookupKey]
    by_cases hk : k0 = pk
    · rw [if_pos hk, if_pos hk]
    · rw [if_neg hk, if_neg hk]
      exact ih

theorem lookup_setEntry_self (es : List (String × MEntry)) (k : String) (e : MEntry) :
    lookupKey k (setEntry es k e) = some e := by
  unfold setEntry
  by_cases h : (lookupKey k es).isSome
  · rw [if_pos h, lookup_map_set, if_pos h]
  · rw [if_neg h]
    exact lookup_append_single es k e (Option.not_isSome_iff_eq_none.mp h)

theorem lookup_setEntry_ne (es : List (String × MEntry)) (k k0 : String) (e : MEntry)
    (h : k0 ≠ k) : lookupKey k0 (setEntry es k e) = lookupKey k0 es := by
  unfold setEntry
  by_cases hs : (lookupKey k es).isSome
  · rw [if_pos hs]
    exact lookup_map_set_ne es k k0 e h
  · rw [if_neg hs]
    exact lookup_append_single_ne es k k0 e h

theorem lookup_mergeEntries_notmem :
    ∀ (plan : List LocalItem) (es : List (String × MEntry)) {k : String},
      k ∉ plan.map LocalItem.key → lookupKey k (mergeEntries es plan) = lookupKey k es := by
  intro plan
  induction plan with
  | nil => intro es k _; rfl
  | cons it rest ih =>
    intro es k hk
    simp only [List.map_cons, List.mem_cons, not_or] at hk
    obtain ⟨hk1, hk2⟩ := hk
    show lookupKey k (mergeEntries (setEntry es it.key ⟨it.sha256, it.size⟩) rest) = _
    rw [ih _ hk2, lookup_setEntry_ne _ _ _ _ hk1]

theorem lookup_mergeEntries_self :
    ∀ (plan : List LocalItem) (es : List (String × MEntry)),
      (plan.map LocalItem.key).Nodup → ∀ it ∈ plan,
        lookupKey it.key (mergeEntries es plan) = some ⟨it.sha256, it.size⟩ := by
  intro plan
  induction plan with
  | nil => intro es _ it hit; cases hit
  | cons hd rest ih =>
    intro es hnd it hit
    simp only [List.map_cons, List.nodup_cons] at hnd
    obtain ⟨hnotin, hnd'⟩ := hnd
    rcases List.mem_cons.mp hit with rfl | hit'
    · show lookupKey it.key (mergeEntries (setEntry es it.key ⟨it.sha256, it.size⟩) rest) = _
      rw [lookup_mergeEntries_notmem rest _ hnotin]
      exact lookup_setEntry_self es it.key ⟨it.sha256, it.size⟩
    · exact ih _ hnd' it hit'

/-! ## Further structural helper lemmas -/

theorem extractAttrs_append (xs ys : List DecodedAttr) :
    extractAttrs (xs ++ ys) = extractAttrs xs ++ extractAttrs ys := by
  induction xs with
  | nil => rfl
  | cons a rest ih =>
    simp only [List.cons_append, extractAttrs, List.append_eq, ih, List.append_assoc]

theorem runPool_id (tasks : List TaskOutcome) : runPool tasks = tasks := by
  induction tasks with
  | nil => rfl
  | cons t ts ih => simp [runPool, ih]

theorem toHeadlessAgg_eq_bucketize (f : Option String) (rules : List SRule) :
    toHeadlessAgg f rules = bucketize (keptRules rules f) := by
  induction rules with
  | nil => rfl
  | cons r rest ih =>
    unfold keptRules at ih ⊢
    cases h : keepRule f r with
    | false =>
      simp only [toHeadlessAgg, h, Bool.false_eq_true, if_false, List.filter_cons, ih]
    | true =>
      simp only [toHeadlessAgg, h, if_true, List.filter_cons, ih]
      simp only [bucketize]

end Geosite

namespace Geosite

/-! ## Claim theorems -/

/-- C1.  With an active (non-null, non-empty) attribute key, the
`toHeadlessRule` filter passes exactly the rules `r` with
`(not negate and r has the key) or (negate and r lacks the key)`; the
aggregation buckets the surviving rules; on
`[{attrs:["cn"]},{attrs:[]}]` the include-cn variant keeps only the
first rule and the exclude-cn variant only the second. -/
theorem claim1_attr_filter (rules : List SRule) (f : Option String) (k : String)
    (hk : filterKey f = some k) (hne : k ≠ "") :
    keptRules rules f =
      rules.filter (fun r => (!filterNeg f && ruleHasKey r k)
        || (filterNeg f && !(ruleHasKey r k)))
    ∧ toHeadlessAgg f rules = bucketize (keptRules rules f)
    ∧ keptRules [⟨"full", "a", ["cn"]⟩, ⟨"full", "b", []⟩] (some "cn")
        = [⟨"full", "a", ["cn"]⟩]
    ∧ keptRules [⟨"full", "a", ["cn"]⟩, ⟨"full", "b", []⟩] (some "!cn")
        = [⟨"full", "b", []⟩] := by
  refine ⟨?_, toHeadlessAgg_eq_bucketize f rules, by decide, by decide⟩
  unfold keptRules
  apply List.filter_congr
  intro r _
  unfold keepRule
  rw [hk]
  dsimp only
  rw [if_neg hne]
  cases hn : filterNeg f <;> cases hb : ruleHasKey r k <;> simp [hn, hb]

/-- Witness for C1 at the filter `"cn"` and the two example rules. -/
theorem claim1_witness :
    keptRules [⟨"full", "a", ["cn"]⟩, ⟨"full", "b", []⟩] (some "cn") =
      List.filter (fun r => (!filterNeg (some "cn") && ruleHasKey r "cn")
        || (filterNeg (some "cn") && !(ruleHasKey r "cn")))
        [⟨"full", "a", ["cn"]⟩, ⟨"full", "b", []⟩]
    ∧ toHeadlessAgg (some "cn") [⟨"full", "a", ["cn"]⟩, ⟨"full", "b", []⟩]
        = bucketize (keptRules [⟨"full", "a", ["cn"]⟩, ⟨"full", "b", []⟩] (some "cn"))
    ∧ keptRules [⟨"full", "a", ["cn"]⟩, ⟨"full", "b", []⟩] (some "cn")
        = [⟨"full", "a", ["cn"]⟩]
    ∧ keptRules [⟨"full", "a", ["cn"]⟩, ⟨"full", "b", []⟩] (some "!cn")
        = [⟨"full", "b", []⟩] :=
  claim1_attr_filter [⟨"full", "a", ["cn"]⟩, ⟨"full", "b", []⟩] (some "cn") "cn"
    (by decide) (by decide)

/-- C2 (counterexample).  The claim "the filter passes `r` iff
`negate == r.attributes.lacks(key)` evaluates to false" fails on the
code: with filter `"cn"` and a rule carrying attribute `"cn"`, the code
keeps the rule although the equation evaluates to true, not false. -/
theorem claim2_counterexample :
    ¬ (keepRule (some "cn") ⟨"full", "a", ["cn"]⟩ = true ↔
        (filterNeg (some "cn") == lacksKey ⟨"full", "a", ["cn"]⟩ "cn") = false) := by
  decide

/-- C2 (amended).  With an active key, the filter passes `r` iff
`negate == r.attributes.lacks(key)` evaluates to true. -/
theorem claim2_amended (r : SRule) (f : Option String) (k : String)
    (hk : filterKey f = some k) (hne : k ≠ "") :
    keepRule f r = true ↔ (filterNeg f == lacksKey r k) = true := by
  unfold keepRule lacksKey
  rw [hk]
  dsimp only
  rw [if_neg hne]
  cases hn : filterNeg f <;> cases hb : ruleHasKey r k <;> simp [hn, hb]

/-- Witness for the amended C2: the include-cn filter on a rule with the
`cn` attribute. -/
theorem claim2_witness :
    keepRule (some "cn") ⟨"full", "a", ["cn"]⟩ = true ↔
      (filterNeg (some "cn") == lacksKey ⟨"full", "a", ["cn"]⟩ "cn") = true :=
  claim2_amended ⟨"full", "a", ["cn"]⟩ (some "cn") "cn" (by decide) (by decide)

/-- C4 (code evaluation at the failing input).  On the all-zero 16-byte
address the IPv6 renderer produces `":::"`, not the `"::"` demanded by
the specification: the compressed join yields `":"`, and then both the
leading-colon and the trailing-colon fixups fire. -/
theorem claim4_zero_address :
    toIPv6String (List.replicate 16 0) = some ":::" ∧ (":::" : String) ≠ "::" := by
  decide

/-- C9.  A decoded boolean attribute valued false contributes nothing to
the rule's attrs list; a boolean attribute valued true contributes its
bare key. -/
theorem claim9_bool_attrs (pre post : List DecodedAttr) (k : String) :
    extractAttrs (pre ++ ⟨k, AttrVal.bv false⟩ :: post) = extractAttrs (pre ++ post)
    ∧ extractAttrs (pre ++ ⟨k, AttrVal.bv true⟩ :: post)
        = extractAttrs pre ++ k :: extractAttrs post := by
  constructor
  · rw [extractAttrs_append, extractAttrs_append]
    simp [extractAttrs]
  · rw [extractAttrs_append]
    simp [extractAttrs]

/-- C3 (counterexample).  Rule ordering is not a pure function of content
under arbitrary re-ordering: two distinct rules that differ only in
letter case compare equal under the case-insensitive comparator, the
sort is stable, and so swapping them in the input swaps them in the
output. -/
theorem claim3_counterexample :
    ([⟨"Full", "A", []⟩, ⟨"Full", "a", []⟩] : List DecodedDomain).Perm
      [⟨"Full", "a", []⟩, ⟨"Full", "A", []⟩]
    ∧ normalizeRules [⟨"Full", "A", []⟩, ⟨"Full", "a", []⟩]
        ≠ normalizeRules [⟨"Full", "a", []⟩, ⟨"Full", "A", []⟩] := by
  constructor
  · exact List.Perm.swap _ _ _
  · decide

/-- C3 (amended).  Provided no two distinct mapped rules tie under the
case-insensitive `(type, value)` comparator, normalization of any
permutation of the decoded sub-records yields the same ordered rule
array; and normalization never merges or drops rules: its output is a
permutation of the mapped input, duplicates included. -/
theorem claim3_amended (l lp : List DecodedDomain) (hp : l.Perm lp)
    (hanti : ∀ r ∈ l.map toRule, ∀ s ∈ l.map toRule, ruleLe r s → ruleLe s r → r = s) :
    normalizeRules l = normalizeRules lp
    ∧ (normalizeRules l).Perm (l.map toRule) := by
  have hcanonl : ∀ x ∈ l.map toRule, canonType x.rtype := by
    intro x hx
    obtain ⟨d, _, rfl⟩ := List.mem_map.mp hx
    exact canonType_domainTypeToRuleType d.dtype
  have hcanonlp : ∀ x ∈ lp.map toRule, canonType x.rtype := by
    intro x hx
    obtain ⟨d, _, rfl⟩ := List.mem_map.mp hx
    exact canonType_domainTypeToRuleType d.dtype
  constructor
  · refine @eq_of_perm_of_pairwise Rule ruleLe _ _
      ((insSort_perm _).trans ((hp.map toRule).trans (insSort_perm _).symm))
      (pairwise_insSort (fun a _ b _ => ruleLe_total a b)
        (fun a ha b hb c _ h1 h2 =>
          ruleLe_trans_canon (hcanonl a ha) (hcanonl b hb) h1 h2))
      (pairwise_insSort (fun a _ b _ => ruleLe_total a b)
        (fun a ha b hb c _ h1 h2 =>
          ruleLe_trans_canon (hcanonlp a ha) (hcanonlp b hb) h1 h2))
      ?_
    intro x hx y hy
    exact hanti x ((insSort_perm _).mem_iff.mp hx) y ((insSort_perm _).mem_iff.mp hy)
  · exact insSort_perm _

/-- Witness for the amended C3 at a two-element swap with no ties. -/
theorem claim3_witness :
    normalizeRules [⟨"Full", "a", []⟩, ⟨"Domain", "b", []⟩]
        = normalizeRules [⟨"Domain", "b", []⟩, ⟨"Full", "a", []⟩]
    ∧ (normalizeRules [⟨"Full", "a", []⟩, ⟨"Domain", "b", []⟩]).Perm
        (([⟨"Full", "a", []⟩, ⟨"Domain", "b", []⟩] : List DecodedDomain).map toRule) :=
  claim3_amended [⟨"Full", "a", []⟩, ⟨"Domain", "b", []⟩]
    [⟨"Domain", "b", []⟩, ⟨"Full", "a", []⟩] (List.Perm.swap _ _ _) (by decide)

/-- C5.  An item is in the publisher's changed set iff it is a plan item
whose key has no manifest entry, or whose entry's stored hash or size
differs; with an empty changed set the run performs no write actions
and leaves the entries untouched. -/
theorem claim5_changed_set (plan : List LocalItem) (entries : List (String × MEntry))
    (dryRun : Bool) :
    (∀ it, it ∈ changedSet plan entries ↔
      it ∈ plan ∧ (lookupKey it.key entries = none ∨
        ∃ e, lookupKey it.key entries = some e ∧
          (e.sha256 ≠ it.sha256 ∨ e.size ≠ it.size)))
    ∧ (changedSet plan entries = [] →
        uploadPlanModel plan entries dryRun = ([], entries)) := by
  constructor
  · intro it
    unfold changedSet
    rw [List.mem_filter]
    apply and_congr_right
    intro _
    unfold isChanged
    cases h : lookupKey it.key entries with
    | none => simp [h]
    | some e => simp [h, bne_iff_ne]
  · intro h
    unfold uploadPlanModel
    simp [h]

/-- Witness for C5: a one-item plan whose hash and size match the
manifest entry leads to no writes. -/
theorem claim5_witness :
    uploadPlanModel [⟨"k1", "h1", 3⟩] [("k1", ⟨"h1", 3⟩)] false
      = ([], [("k1", ⟨"h1", 3⟩)]) :=
  (claim5_changed_set [⟨"k1", "h1", 3⟩] [("k1", ⟨"h1", 3⟩)] false).2 (by decide)

/-- C6 (counterexample).  With tasks `[ok, fail, ok]` the geosite SRS
builder executes only two of the three tasks (the failure aborts the
whole run, not just its own variant), while the geoip SRS builder's
pool exits 0 despite the failure.  Both contradict the claim that
siblings always complete and that the process exits non-zero whenever a
task failed. -/
theorem claim6_counterexample :
    (geositeSrsMain [Except.ok (), Except.error "boom", Except.ok ()]).1 = 2
    ∧ (geositeSrsMain [Except.ok (), Except.error "boom", Except.ok ()]).1 ≠ 3
    ∧ (geoipSrsMain [Except.ok (), Except.error "boom", Except.ok ()]).1 = 0
    ∧ isFailure (Except.error "boom") = true := by
  decide

/-- C6 (amended).  In the geoip SRS builder, a task failure is caught per
task: every task runs and its outcome is recorded, but the process
exits 0 regardless of failures.  In the geosite SRS builder, tasks run
sequentially and the first failure aborts the run with exit status 1,
leaving the remaining tasks unexecuted. -/
theorem claim6_amended (pre post : List TaskOutcome) (e : String)
    (hpre : ∀ t ∈ pre, isFailure t = false) :
    geositeSrsMain (pre ++ Except.error e :: post) = (pre.length + 1, 1)
    ∧ geoipSrsMain (pre ++ Except.error e :: post) = (0, pre ++ Except.error e :: post) := by
  constructor
  · induction pre with
    | nil => rfl
    | cons t rest ih =>
      have ht : isFailure t = false := hpre t (List.mem_cons_self t rest)
      cases t with
      | error s => simp [isFailure] at ht
      | ok u =>
        have := ih (fun x hx => hpre x (List.mem_cons_of_mem _ hx))
        simp only [List.cons_append, geositeSrsMain, List.append_eq, this, List.length_cons]
  · unfold geoipSrsMain
    rw [runPool_id]

/-- Witness for the amended C6 at `[ok, fail, ok]`. -/
theorem claim6_witness :
    geositeSrsMain [Except.ok (), Except.error "boom", Except.ok ()] = (2, 1)
    ∧ geoipSrsMain [Except.ok (), Except.error "boom", Except.ok ()]
        = (0, [Except.ok (), Except.error "boom", Except.ok ()]) :=
  claim6_amended [Except.ok ()] [Except.ok ()] "boom" (by decide)

/-- C7.  After a successful non-dry publish with a non-empty changed set
and a key-unique inventory, the resulting manifest maps every local
item's key to that item's hash and size, leaves unrelated keys at their
remote values, and the manifest upload is the final write, preceded
only by object uploads. -/
theorem claim7_manifest_merge (plan : List LocalItem) (entries : List (String × MEntry))
    (hnd : (plan.map LocalItem.key).Nodup) (hch : changedSet plan entries ≠ []) :
    (∀ it ∈ plan, lookupKey it.key (uploadPlanModel plan entries false).2
        = some ⟨it.sha256, it.size⟩)
    ∧ (∀ k, k ∉ plan.map LocalItem.key →
        lookupKey k (uploadPlanModel plan entries false).2 = lookupKey k entries)
    ∧ (uploadPlanModel plan entries false).1.getLast? = some PubAction.putManifest
    ∧ (∀ a ∈ (uploadPlanModel plan entries false).1.dropLast,
        ∃ k0, a = PubAction.putObj k0) := by
  have key : uploadPlanModel plan entries false =
      ((changedSet plan entries).map (fun it => PubAction.putObj it.key)
          ++ [PubAction.putManifest],
        mergeEntries entries plan) := by
    unfold uploadPlanModel
    rw [if_neg hch]
    rfl
  rw [key]
  refine ⟨?_, ?_, ?_, ?_⟩
  · intro it hit
    exact lookup_mergeEntries_self plan entries hnd it hit
  · intro k hk
    exact lookup_mergeEntries_notmem plan entries hk
  · exact List.getLast?_concat _
  · intro a ha
    rw [List.dropLast_concat] at ha
    obtain ⟨it, _, rfl⟩ := List.mem_map.mp ha
    exact ⟨it.key, rfl⟩

/-- Witness for C7: one new item over a one-entry remote manifest. -/
theorem claim7_witness :
    (∀ it ∈ ([⟨"k2", "h3", 4⟩] : List LocalItem),
      lookupKey it.key (uploadPlanModel [⟨"k2", "h3", 4⟩] [("k1", ⟨"h1", 3⟩)] false).2
        = some ⟨it.sha256, it.size⟩)
    ∧ (∀ k, k ∉ ([⟨"k2", "h3", 4⟩] : List LocalItem).map LocalItem.key →
        lookupKey k (uploadPlanModel [⟨"k2", "h3", 4⟩] [("k1", ⟨"h1", 3⟩)] false).2
          = lookupKey k [("k1", ⟨"h1", 3⟩)])
    ∧ (uploadPlanModel [⟨"k2", "h3", 4⟩] [("k1", ⟨"h1", 3⟩)] false).1.getLast?
        = some PubAction.putManifest
    ∧ (∀ a ∈ (uploadPlanModel [⟨"k2", "h3", 4⟩] [("k1", ⟨"h1", 3⟩)] false).1.dropLast,
        ∃ k0, a = PubAction.putObj k0) :=
  claim7_manifest_merge [⟨"k2", "h3", 4⟩] [("k1", ⟨"h1", 3⟩)] (by decide) (by decide)

/-- C8.  A CIDR sub-record whose address length is neither 4 nor 16 makes
both renderers signal unsupported length (`null`, modelled `none`),
contributes to neither the `cidr4` nor the `cidr6` list, and leaves the
processing of all other entries of the group unchanged. -/
theorem claim8_unsupported_length (pre post : List CidrRec) (c : CidrRec)
    (h4 : c.ip.length ≠ 4) (h16 : c.ip.length ≠ 16) :
    toIPv4String c.ip = none ∧ toIPv6String c.ip = none
    ∧ collectCidrs (pre ++ c :: post) = collectCidrs (pre ++ post) := by
  refine ⟨?_, ?_, ?_⟩
  · unfold toIPv4String
    rw [if_neg h4]
  · unfold toIPv6String
    rw [if_neg h16]
  · induction pre with
    | nil =>
      simp only [List.nil_append, collectCidrs]
      rw [if_neg h4, if_neg h16]
    | cons p rest ih =>
      simp only [List.cons_append, collectCidrs, List.append_eq, ih]

/-- Witness for C8 at a 5-byte address followed by a valid IPv4 record. -/
theorem claim8_witness :
    toIPv4String [1, 2, 3, 4, 5] = none ∧ toIPv6String [1, 2, 3, 4, 5] = none
    ∧ collectCidrs [⟨[1, 2, 3, 4, 5], 8⟩, ⟨[10, 0, 0, 0], 8⟩]
        = collectCidrs [⟨[10, 0, 0, 0], 8⟩] :=
  claim8_unsupported_length [] [⟨[10, 0, 0, 0], 8⟩] ⟨[1, 2, 3, 4, 5], 8⟩
    (by decide) (by decide)

/-- C10.  A decoded top-level entry whose name is absent or trims to the
empty string is dropped whole, on both the geosite and the geoip side:
the built category/group list and the indexes are the same as without
the entry, and all other entries are unaffected. -/
theorem claim10_empty_name (pre post : List GeoSiteEntry) (e : GeoSiteEntry)
    (ipre ipost : List GeoIPEntry) (g : GeoIPEntry)
    (he : entryName e = "") (hg : ipEntryName g = "") :
    buildCategories (pre ++ e :: post) = buildCategories (pre ++ post)
    ∧ geositeIndex (pre ++ e :: post) = geositeIndex (pre ++ post)
    ∧ buildGroups (ipre ++ g :: ipost) = buildGroups (ipre ++ ipost)
    ∧ geoipIndex (ipre ++ g :: ipost) = geoipIndex (ipre ++ ipost) := by
  have h1 : buildCategories (pre ++ e :: post) = buildCategories (pre ++ post) := by
    induction pre with
    | nil =>
      simp only [List.nil_append, buildCategories]
      rw [if_pos he]
    | cons p rest ih =>
      simp only [List.cons_append, buildCategories, List.append_eq, ih]
  have h3 : buildGroups (ipre ++ g :: ipost) = buildGroups (ipre ++ ipost) := by
    induction ipre with
    | nil =>
      simp only [List.nil_append, buildGroups]
      rw [if_pos hg]
    | cons p rest ih =>
      simp only [List.cons_append, buildGroups, List.append_eq, ih]
  refine ⟨h1, ?_, h3, ?_⟩
  · unfold geositeIndex sortedCategories
    rw [h1]
  · unfold geoipIndex
    rw [h3]

/-- Witness for C10: a whitespace-only geosite name and an absent geoip
name are both dropped. -/
theorem claim10_witness :
    buildCategories [⟨some "  ", []⟩, ⟨some "test", []⟩]
        = buildCategories [⟨some "test", []⟩]
    ∧ geositeIndex [⟨some "  ", []⟩, ⟨some "test", []⟩]
        = geositeIndex [⟨some "test", []⟩]
    ∧ buildGroups [⟨none, [⟨[1, 2, 3, 4], 8⟩]⟩] = buildGroups []
    ∧ geoipIndex [⟨none, [⟨[1, 2, 3, 4], 8⟩]⟩] = geoipIndex [] :=
  claim10_empty_name [] [⟨some "test", []⟩] ⟨some "  ", []⟩ [] [] ⟨none, [⟨[1, 2, 3, 4], 8⟩]⟩
    (by decide) (by decide)

end Geosite
